import Mathlib

/-!
Verification development for `stream_checker.py` (the `StreamChecker` class and
its `process_files` / `check_url` pipeline).

The Python source is shallowly embedded as executable Lean definitions:

* network and subprocess interactions are parameterised by an explicit
  environment (`NetEnv`) whose fields give, for each URL, the result of the
  HTTP GET / HEAD request (a response, a timeout, or another exception) and
  the result of an ffprobe invocation;
* module-level configuration globals (`DEEP_VALIDATION`, `USE_FFPROBE`,
  `M3U8_SEGMENTS_TO_CHECK`, `SAVE_INTERVAL`, ...) become fields of `Config`;
* the mutable object state of `StreamChecker` (`processed_urls`,
  `results`, `processed_url_hashes`, `last_save_count`, and the checkpoint
  file on disk) becomes the explicit state record `RunState`;
* `bytes` values are lists of naturals, `str` values are Lean `String`s.

Each definition mirrors one Python function of the source and is documented
with the function it embeds.
-/

/-- Classification statuses used by the checker: the keys of `self.results`
    (`"valid"`, `"invalid"`, `"timeout"`, `"error"`). -/
inductive Status where
  | valid
  | invalid
  | timeout
  | error
deriving DecidableEq, Repr

/-- One input record (`url_info` dict): `name`, `url` and optional `category`
    (the code reads `url_info.get("category", "")`, so the missing-category
    case is modelled by the empty string, and `url_info.get("name", "Unknown")`
    by the stored name). -/
structure UrlRecord where
  name : String
  url : String
  category : String
deriving DecidableEq, Repr

/-- The value triple produced by `check_url` besides the echoed record:
    `(status, response_time, error_message)`. -/
structure CheckOutcome where
  status : Status
  responseTime : ℚ
  errMsg : Option String
deriving DecidableEq, Repr

/-- An entry appended to a result bucket in `process_files` (lines 750-756). -/
structure ResultEntry where
  name : String
  url : String
  category : String
  responseTime : ℚ
  errMsg : Option String
deriving DecidableEq, Repr

/-- The four classification buckets of `self.results`. -/
structure Results where
  valid : List ResultEntry
  invalid : List ResultEntry
  timeout : List ResultEntry
  error : List ResultEntry
deriving DecidableEq, Repr

/-- The pickled checkpoint payload (`checkpoint_data` in `save_checkpoint`). -/
structure Checkpoint where
  processedUrlHashes : List String
  results : Results
  totalUrls : Nat
  processedUrls : Nat
deriving DecidableEq, Repr

/-- The mutable state of a `StreamChecker` object together with the checkpoint
    file on disk.  `processedUrlHashes` models the Python `set` as a
    duplicate-free insertion list; `savesPerformed` counts executions of
    `save_results` (writes of the output artifacts); `checkpointFile` is the
    content of the checkpoint file (`none` = the file does not exist). -/
structure RunState where
  processedUrls : Nat := 0
  results : Results := ⟨[], [], [], []⟩
  processedUrlHashes : List String := []
  totalUrls : Nat := 0
  lastSaveCount : Nat := 0
  savesPerformed : Nat := 0
  checkpointFile : Option Checkpoint := none
deriving DecidableEq, Repr

/-- Result of one network call: a value, an `asyncio.TimeoutError`, or another
    exception carrying its `str(e)` message.  (`str` of a bare
    `asyncio.TimeoutError` is the empty string, which is how the `timeout`
    constructor is rendered when caught by a generic `except Exception`.) -/
inductive NetResult (α : Type) where
  | ok (a : α)
  | timeout
  | exc (msg : String)
deriving DecidableEq, Repr

/-- An HTTP response as observed by `check_url`: status code, `Content-Type`
    header (raw; the code lowercases it), the full text body
    (`await response.text()`), the available body bytes
    (`await response.content.read(n)` reads a prefix of `preview`), and the
    UTF-8 decoding of the read bytes (`none` when decoding raises). -/
structure HttpResponse where
  status : Nat
  contentType : String
  textBody : String
  preview : List Nat
  previewDecoded : Option String
deriving DecidableEq, Repr

/-- Outcome of the ffprobe subprocess in `_validate_with_ffprobe`:
    it timed out, or terminated with an exit code, the parsed list of
    `codec_type` fields from its JSON output (`none` = `json.loads` failed),
    and its stderr text. -/
inductive ProcResult where
  | timedOut
  | done (exitCode : Int) (codecTypes : Option (List String)) (stderr : String)
deriving DecidableEq, Repr

/-- The ambient world a probe interacts with.  `get`/`head` give the result of
    `session.get` / `session.head` per URL; `ffprobeProc` the subprocess
    outcome per URL; `likely` is the oracle for `re.search` over
    `self.stream_url_patterns` (the regex engine is not modelled); `join` is
    the oracle for `urllib.parse.urljoin`; `elapsed` is the wall-clock
    `time.time() - start_time` measured for the probe. -/
structure NetEnv where
  get : String → NetResult HttpResponse
  head : String → NetResult Nat
  ffprobeProc : String → ProcResult
  likely : String → Bool
  join : String → String → String
  elapsed : ℚ

/-- The configuration globals read by the core, plus the constructor
    parameters of `StreamChecker`.  `urlHash` models `url_hash` (an MD5
    hexdigest), kept abstract as a string function; `hasOutputFile` is the
    truthiness of `self.output_file`; `checkpointFileSet` the truthiness of
    `self.checkpoint_file`. -/
structure Config where
  concurrency : Nat
  saveInterval : Nat
  deepValidation : Bool
  validateM3u8Content : Bool
  validateOtherStreams : Bool
  useFfprobe : Bool
  segmentsToCheck : Nat
  enableCheckpoint : Bool
  checkpointFileSet : Bool
  hasOutputFile : Bool
  streamContentTypes : List String
  urlHash : String → String

/-- Executable contiguous-sublist test (Python `sub in s` on sequences):
    true iff `needle` occurs as a contiguous run inside the second list. -/
def listInfixOf [BEq α] (needle : List α) : List α → Bool
  | [] => needle.isEmpty
  | h :: t => needle.isPrefixOf (h :: t) || listInfixOf needle t

/-- Python `pre + rest == s` prefix test `s.startswith(pre)`. -/
def strStartsWith (s pre : String) : Bool := pre.data.isPrefixOf s.data

/-- Python `s.endswith(suf)`. -/
def strEndsWith (s suf : String) : Bool := suf.data.isSuffixOf s.data

/-- Python `s.lower()` (ASCII case folding suffices for the schemes,
    extensions and content types compared here). -/
def strToLower (s : String) : String := String.mk (s.data.map Char.toLower)

/-- Python substring test `sub in s`. -/
def strContains (s sub : String) : Bool := listInfixOf sub.data s.data

/-- The whitespace characters stripped by Python `str.strip()` (ASCII part). -/
def isSpaceChar (c : Char) : Bool :=
  c == ' ' || c == '\t' || c == '\n' || c == '\r' || c == '\x0b' || c == '\x0c'

/-- Python `s.strip()`. -/
def strTrim (s : String) : String :=
  String.mk (((s.data.dropWhile isSpaceChar).reverse.dropWhile isSpaceChar).reverse)

/-- Splits a character list at every occurrence of `c` (the pieces between
    separators, like `str.split(c)`). -/
def splitOnCharCore (c : Char) : List Char → List (List Char)
  | [] => [[]]
  | h :: t =>
    let r := splitOnCharCore c t
    if h == c then [] :: r else (h :: r.headD []) :: r.tail

/-- Model of `str.splitlines` for LF / CRLF terminated text.  (Python also
    recognises rarer terminators and drops a trailing empty line; the
    difference is invisible to the playlist extractors, which skip blank
    lines.) -/
def splitLines (s : String) : List String :=
  (splitOnCharCore '\n' s.data).map
    (fun l => String.mk (if l.getLast? = some '\r' then l.dropLast else l))

/-- Characters allowed in a URL scheme by `urllib.parse` (letters, digits,
    `+`, `-`, `.`). -/
def scheme_char (c : Char) : Bool :=
  c.isAlpha || c.isDigit || c == '+' || c == '-' || c == '.'

/-- The scheme/rest split performed by `urllib.parse.urlparse`: if the text up
    to the first `:` is a well-formed scheme (nonempty, leading letter, scheme
    characters only) it is split off and lowercased, otherwise the scheme is
    empty and the whole URL is the rest. -/
def url_scheme_split (url : String) : String × String :=
  match url.data.findIdx? (fun c => c == ':') with
  | some i =>
    if 0 < i ∧ (url.data.headD ' ').isAlpha ∧ (url.data.take i).all scheme_char then
      (String.mk ((url.data.take i).map Char.toLower), String.mk (url.data.drop (i + 1)))
    else ("", url)
  | none => ("", url)

/-- The `netloc` component of `urllib.parse.urlparse` applied to the rest
    after the scheme: present only after `//`, extending to the next
    `/`, `?` or `#`. -/
def url_netloc (rest : String) : String :=
  if strStartsWith rest "//" then
    String.mk ((rest.data.drop 2).takeWhile (fun c => !(c == '/' || c == '?' || c == '#')))
  else ""

/-- The URL well-formedness test of `check_url` lines 200-201:
    `parsed_url.scheme` and `parsed_url.netloc` both nonempty
    (the code rejects when either is falsy). -/
def url_parse_ok (url : String) : Bool :=
  let p := url_scheme_split url
  !(p.1 == "" || url_netloc p.2 == "")

/-- `int.from_bytes(bs, byteorder='big')`. -/
def int_from_bytes_be (l : List Nat) : Nat := l.foldl (fun acc b => acc * 256 + b) 0

/-- `_validate_flv` (lines 1130-1163): strict structural check of the 9-byte
    FLV header: signature `FLV` (bytes 70, 76, 86), version byte 1, flags byte
    in {1, 4, 5}, big-endian u32 header size 9. -/
def validate_flv (b : List Nat) : Bool :=
  if b.length < 9 then false
  else if ¬ b.take 3 = [70, 76, 86] then false
  else if b.getD 3 0 ≠ 1 then false
  else if ¬ (b.getD 4 0 = 1 ∨ b.getD 4 0 = 4 ∨ b.getD 4 0 = 5) then false
  else if int_from_bytes_be ((b.drop 5).take 4) ≠ 9 then false
  else true

/-- The signature battery used by `_check_stream_content` for `.php` and
    extensionless URLs: HLS marker, TS sync byte, `ftyp` box marker, FLV
    header, or an XML declaration anywhere in the sample. -/
def generic_signatures (bytes : List Nat) : Bool :=
  decide (bytes.take 7 = [0x23, 0x45, 0x58, 0x54, 0x4D, 0x33, 0x55]) ||
  decide (bytes.take 1 = [0x47]) ||
  listInfixOf [0x66, 0x74, 0x79, 0x70] bytes ||
  validate_flv bytes ||
  listInfixOf [0x3C, 0x3F, 0x78, 0x6D, 0x6C] bytes

/-- `_check_stream_content` (lines 1076-1128).  `bytes` is the byte sample
    read from the response, `decoded` its UTF-8 decoding (`none` when
    `bytes.decode('utf-8')` raises, making the `.m3u8` branch return false
    through its `except`). -/
def check_stream_content (bytes : List Nat) (decoded : Option String) (url : String) : Bool :=
  let lurl := strToLower url
  if strEndsWith lurl ".m3u8" then
    match decoded with
    | some content =>
      strStartsWith content "#EXTM3U" || strContains content "#EXT-X-STREAM-INF"
    | none => false
  else if strEndsWith lurl ".ts" then
    decide (bytes.take 1 = [0x47])
  else if strEndsWith lurl ".mp4" then
    listInfixOf [0x66, 0x74, 0x79, 0x70] bytes
  else if strEndsWith lurl ".flv" then
    validate_flv bytes
  else if strContains lurl ".php" then
    generic_signatures bytes
  else
    generic_signatures bytes

/-- `_validate_with_ffprobe` (lines 1250-1309), as a function of the
    subprocess outcome: a timeout kills the process and reports
    `"ffprobe timeout"`, a nonzero exit code reports the stderr text,
    unparseable JSON reports a parse failure, and otherwise the stream list
    must be nonempty and contain a video or audio `codec_type`.  Every branch
    returns `(bool, message)`; the surrounding `try` never lets an exception
    escape. -/
def validate_with_ffprobe (proc : ProcResult) : Bool × Option String :=
  match proc with
  | .timedOut => (false, some "ffprobe timeout")
  | .done exitCode codecTypes stderr =>
    if exitCode ≠ 0 then (false, some ("ffprobe error: " ++ stderr))
    else
      match codecTypes with
      | none => (false, some "Failed to parse ffprobe output")
      | some streams =>
        if streams.isEmpty then (false, some "No streams found")
        else if streams.contains "video" || streams.contains "audio" then (true, none)
        else (false, some "No video or audio streams found")

/-- The base-URL computation shared by `_validate_m3u8` and
    `_validate_media_playlist`: `url.rsplit('/', 1)[0] if '/' in url else url`
    (everything before the last slash). -/
def base_url_of (url : String) : String :=
  if url.data.contains '/' then
    String.mk (((url.data.reverse.dropWhile (fun c => !(c == '/'))).drop 1).reverse)
  else url

/-- Variant-reference extraction of `_validate_m3u8` (lines 1185-1192): an
    `http`-prefixed line is kept stripped; any other non-comment, non-blank
    line is resolved against the playlist directory via `urljoin`. -/
def extract_variant_urls (env : NetEnv) (url content : String) : List String :=
  (splitLines content).foldr
    (fun line acc =>
      if strStartsWith line "http" then strTrim line :: acc
      else if ¬ strStartsWith line "#" = true ∧ strTrim line ≠ "" then
        env.join (base_url_of url ++ "/") (strTrim line) :: acc
      else acc) []

/-- Segment-reference extraction of `_validate_media_playlist`
    (lines 1225-1233): same resolution, with the comment/blank test applied
    first as in the source. -/
def extract_segments (env : NetEnv) (url content : String) : List String :=
  (splitLines content).foldr
    (fun line acc =>
      if ¬ strStartsWith line "#" = true ∧ strTrim line ≠ "" then
        (if strStartsWith line "http" then strTrim line
         else env.join (base_url_of url ++ "/") (strTrim line)) :: acc
      else acc) []

/-- The failure detail `f"Segment {i+1} HTTP status: {response.status}"`
    (1-based index). -/
def seg_detail (i status : Nat) : String :=
  "Segment " ++ toString i ++ " HTTP status: " ++ toString status

/-- The failure detail `f"Error checking segment {i+1}: {str(e)}"`
    (`str` of an `asyncio.TimeoutError` is empty). -/
def seg_exc_detail (i : Nat) (msg : String) : String :=
  "Error checking segment " ++ toString i ++ ": " ++ msg

/-- The HEAD-check loop of `_validate_media_playlist` (lines 1240-1246):
    checks `k` further segments starting at index `i`, failing at the first
    segment whose HEAD has status >= 400 or raises. -/
def check_segments (head : String → NetResult Nat) (segs : List String) :
    Nat → Nat → Bool × Option String
  | 0, _ => (true, none)
  | k + 1, i =>
    match head (segs.getD i "") with
    | .ok s =>
      if 400 ≤ s then (false, some (seg_detail (i + 1) s))
      else check_segments head segs k (i + 1)
    | .timeout => (false, some (seg_exc_detail (i + 1) ""))
    | .exc m => (false, some (seg_exc_detail (i + 1) m))

/-- `_validate_media_playlist` (lines 1211-1248): extract segment references;
    fail when none exist; otherwise HEAD-check the first
    `min(len(segments), M3U8_SEGMENTS_TO_CHECK)` segments in listed order. -/
def validate_media_playlist (cfg : Config) (env : NetEnv) (url content : String) :
    Bool × Option String :=
  let segments := extract_segments env url content
  if segments.isEmpty then (false, some "No media segments found in playlist")
  else check_segments env.head segments (min segments.length cfg.segmentsToCheck) 0

/-- `_validate_m3u8` (lines 1165-1209): header check, then master-playlist
    handling (fetch the first variant only; its fetch errors — timeouts
    included — are caught by `except Exception` and become a failure detail),
    else media-playlist validation. -/
def validate_m3u8 (cfg : Config) (env : NetEnv) (url content : String) :
    Bool × Option String :=
  if cfg.validateM3u8Content ∧ ¬ strStartsWith content "#EXTM3U" = true then
    (false, some "Not a valid M3U8 file (missing #EXTM3U header)")
  else if strContains content "#EXT-X-STREAM-INF" then
    match extract_variant_urls env url content with
    | [] => (false, some "No variant streams found in master playlist")
    | v0 :: _ =>
      match env.get v0 with
      | .timeout => (false, some ("Error checking variant stream: " ++ ""))
      | .exc m => (false, some ("Error checking variant stream: " ++ m))
      | .ok resp =>
        if 400 ≤ resp.status then
          (false, some ("Variant stream HTTP status: " ++ toString resp.status))
        else validate_media_playlist cfg env v0 resp.textBody
  else validate_media_playlist cfg env url content

/-- The value computed by `check_url` (lines 181-302) for one URL: the
    `(status, response_time, error_message)` triple.  The invalid-URL early
    return reports elapsed time `0`; all other paths report the measured
    elapsed time.  The inner `try` of the source maps a GET timeout to
    `"timeout"` and any other exception to `"error"` with `str(e)` as detail;
    both are modelled by the `NetResult` scrutinee. -/
def check_url_result (cfg : Config) (env : NetEnv) (url : String) : CheckOutcome :=
  if ¬ url_parse_ok url = true then ⟨.invalid, 0, some "Invalid URL format"⟩
  else if strStartsWith (strToLower url) "rtmp://" = true ∧ cfg.useFfprobe = true then
    match validate_with_ffprobe (env.ffprobeProc url) with
    | (true, _) => ⟨.valid, env.elapsed, none⟩
    | (false, e) => ⟨.invalid, env.elapsed, e⟩
  else
    match env.get url with
    | .timeout => ⟨.timeout, env.elapsed, some "Request timed out"⟩
    | .exc m => ⟨.error, env.elapsed, some m⟩
    | .ok resp =>
      if resp.status < 400 then
        let ct := strToLower resp.contentType
        if (strEndsWith (strToLower url) ".m3u8" = true ∨ strContains ct "mpegurl" = true)
            ∧ cfg.deepValidation = true then
          match validate_m3u8 cfg env url resp.textBody with
          | (true, _) => ⟨.valid, env.elapsed, none⟩
          | (false, e) => ⟨.invalid, env.elapsed, e⟩
        else if (strEndsWith (strToLower url) ".flv" = true ∨ strContains ct "flv" = true)
            ∧ cfg.validateOtherStreams = true then
          if validate_flv (resp.preview.take 12) then ⟨.valid, env.elapsed, none⟩
          else ⟨.invalid, env.elapsed, some "Not a valid FLV stream"⟩
        else if cfg.streamContentTypes.any (fun t => strContains ct t) then
          ⟨.valid, env.elapsed, none⟩
        else if cfg.validateOtherStreams then
          if check_stream_content (resp.preview.take 1024) resp.previewDecoded url then
            ⟨.valid, env.elapsed, none⟩
          else if env.likely url then ⟨.valid, env.elapsed, none⟩
          else ⟨.invalid, env.elapsed, some "Content does not appear to be a valid stream"⟩
        else if env.likely url then ⟨.valid, env.elapsed, none⟩
        else ⟨.invalid, env.elapsed, some "URL does not match known stream patterns"⟩
      else ⟨.invalid, env.elapsed, some ("HTTP status: " ++ toString resp.status)⟩

/-- The two `return` paths of `check_url` that exit before the bookkeeping at
    lines 292-300: invalid URL format (line 202) and the rtmp/ffprobe
    delegation (line 228). -/
def early_return (cfg : Config) (url : String) : Bool :=
  !url_parse_ok url || (strStartsWith (strToLower url) "rtmp://" && cfg.useFfprobe)

/-- Python `round(q, 2)` (ties rounded up rather than banker-style; no claim
    exercises a tie). -/
def round2 (q : ℚ) : ℚ := (Int.floor (q * 100 + 1 / 2) : ℚ) / 100

/-- The checkpoint payload assembled by `save_checkpoint` (lines 605-610). -/
def snapshot (st : RunState) : Checkpoint :=
  ⟨st.processedUrlHashes, st.results, st.totalUrls, st.processedUrls⟩

/-- `save_checkpoint` (lines 598-626): atomically replaces the checkpoint
    file with a snapshot when a checkpoint path is configured. -/
def save_checkpoint (cfg : Config) (st : RunState) : RunState :=
  if cfg.checkpointFileSet then { st with checkpointFile := some (snapshot st) } else st

/-- `save_results` (lines 779-842): one write of the output artifacts,
    counted in `savesPerformed` (report rendering itself is outside the
    modelled core). -/
def save_results (st : RunState) : RunState :=
  { st with savesPerformed := st.savesPerformed + 1 }

/-- `save_intermediate_results` (lines 666-673): when an output file is
    configured, write the results and then the checkpoint. -/
def save_intermediate_results (cfg : Config) (st : RunState) : RunState :=
  if cfg.hasOutputFile then save_checkpoint cfg (save_results st) else st

/-- The bookkeeping `check_url` performs itself after a non-early-return
    probe (lines 292-300): increment `processed_urls` and, every
    `save_interval` probes, run `save_intermediate_results` and advance
    `last_save_count`. -/
def probe_bookkeeping (cfg : Config) (st : RunState) : RunState :=
  let p := st.processedUrls + 1
  let st1 := { st with processedUrls := p }
  if p % cfg.saveInterval = 0 ∧ st.lastSaveCount < p then
    { save_intermediate_results cfg st1 with lastSaveCount := p }
  else st1

/-- One `check_url` call as a state transformer: the returned tuple plus the
    state mutation the call performs (none on the early-return paths). -/
def check_url_step (cfg : Config) (env : NetEnv) (rec : UrlRecord) (st : RunState) :
    RunState × CheckOutcome :=
  let out := check_url_result cfg env rec.url
  if early_return cfg rec.url then (st, out)
  else (probe_bookkeeping cfg st, out)

/-- The per-result bookkeeping of `process_files` (lines 745-756): add the
    URL hash to the processed set and append the entry (with the rounded
    response time) to the bucket named by the status. -/
def record_result (cfg : Config) (st : RunState) (p : UrlRecord × CheckOutcome) : RunState :=
  let h := cfg.urlHash p.1.url
  let hashes :=
    if h ∈ st.processedUrlHashes then st.processedUrlHashes else h :: st.processedUrlHashes
  let entry : ResultEntry := ⟨p.1.name, p.1.url, p.1.category, round2 p.2.responseTime, p.2.errMsg⟩
  let res := st.results
  let res' :=
    match p.2.status with
    | .valid => { res with valid := res.valid ++ [entry] }
    | .invalid => { res with invalid := res.invalid ++ [entry] }
    | .timeout => { res with timeout := res.timeout ++ [entry] }
    | .error => { res with error := res.error ++ [entry] }
  { st with processedUrlHashes := hashes, results := res' }

/-- One batch of the draining loop (lines 737-759): run `check_url` over the
    batch (`asyncio.gather` returns the outcomes in task order; the per-probe
    bookkeeping is folded in batch order, which fixes one completion
    interleaving), then record every outcome, then save intermediate
    results. -/
def run_batch (cfg : Config) (env : NetEnv) (batch : List UrlRecord) (st : RunState) :
    RunState :=
  let st1 := batch.foldl (fun s rec => (check_url_step cfg env rec s).1) st
  let outs := batch.map (fun rec => (rec, check_url_result cfg env rec.url))
  save_intermediate_results cfg (outs.foldl (record_result cfg) st1)

/-- Fuel-indexed slicing of the record list into batches of `n`
    (`range(0, len, n)` slices; the source always runs with `n >= 1`, and the
    `max n 1` guard mirrors that precondition while keeping the function
    total). -/
def chunksFuel (n : Nat) : Nat → List α → List (List α)
  | _, [] => []
  | 0, _ :: _ => []
  | fuel + 1, h :: t =>
    ((h :: t).take (max n 1)) :: chunksFuel n fuel ((h :: t).drop (max n 1))

/-- The batches of the draining loop. -/
def chunks (n : Nat) (l : List α) : List (List α) := chunksFuel n l.length l

/-- The draining loop of `process_files`: one `run_batch` per concurrency
    sized slice. -/
def run_batches (cfg : Config) (env : NetEnv) (records : List UrlRecord) (st : RunState) :
    RunState :=
  (chunks cfg.concurrency records).foldl (fun s b => run_batch cfg env b s) st

/-- The order-preserving first-occurrence deduplication by exact URL string
    (lines 697-703), with the growing `seen_urls` set as an accumulator. -/
def dedup_records : List UrlRecord → List String → List UrlRecord
  | [], _ => []
  | r :: rs, seen =>
    if r.url ∈ seen then dedup_records rs seen
    else r :: dedup_records rs (r.url :: seen)

/-- The checkpoint-resume step of `process_files` (lines 713-724): when a
    checkpoint path is configured, the file exists and checkpointing is
    enabled, load the saved state and drop every record whose URL hash is
    already in the processed set. -/
def resume_filter (cfg : Config) (st0 : RunState) (cpFile : Option Checkpoint)
    (uniq : List UrlRecord) : RunState × List UrlRecord :=
  match cpFile with
  | some cp =>
    if cfg.checkpointFileSet ∧ cfg.enableCheckpoint then
      ({ st0 with processedUrlHashes := cp.processedUrlHashes,
                  results := cp.results,
                  totalUrls := cp.totalUrls,
                  processedUrls := cp.processedUrls },
       uniq.filter (fun r => decide (cfg.urlHash r.url ∉ cp.processedUrlHashes)))
    else (st0, uniq)
  | none => (st0, uniq)

/-- The final checkpoint deletion of `process_files` (lines 769-775). -/
def delete_checkpoint (cfg : Config) (st : RunState) : RunState :=
  if cfg.checkpointFileSet ∧ st.checkpointFile.isSome then
    { st with checkpointFile := none }
  else st

/-- `process_files` (lines 675-777) from the point where the per-file record
    lists have been concatenated (file discovery and parsing are the
    out-of-scope collaborators): dedup, resume, drain in batches, save, and
    delete the checkpoint.  Returns the final state and the number of
    records dispatched to probes in this run.  Note the all-already-processed
    early return (lines 727-731) does not delete the checkpoint. -/
def process_files (cfg : Config) (env : NetEnv) (records : List UrlRecord)
    (cpFile : Option Checkpoint) : RunState × Nat :=
  let uniq := dedup_records records []
  let st0 : RunState := { totalUrls := uniq.length, checkpointFile := cpFile }
  if uniq.length = 0 then (st0, 0)
  else
    let r1 := resume_filter cfg st0 cpFile uniq
    if r1.2.isEmpty then
      (if cfg.hasOutputFile then save_results r1.1 else r1.1, 0)
    else
      let st2 := run_batches cfg env r1.2 r1.1
      let st3 := if cfg.hasOutputFile then save_results st2 else st2
      (delete_checkpoint cfg st3, r1.2.length)

/-- Total number of outcomes stored across the four classification buckets:
    `sum(len(v) for v in self.results.values())`. -/
def bucket_sum (r : Results) : Nat :=
  r.valid.length + r.invalid.length + r.timeout.length + r.error.length

/-- The configuration the script runs with: the module constants of
    `stream_checker.py` (lines 29-80) plus an always-set output file
    (`OUTPUT_FILE`) and checkpoint path (`CHECKPOINT_FILE`).  The MD5 url
    hash is replaced by an abstract injective stand-in; no theorem below
    depends on its values beyond injectivity, stated where used. -/
def default_config : Config where
  concurrency := 200
  saveInterval := 100
  deepValidation := true
  validateM3u8Content := true
  validateOtherStreams := true
  useFfprobe := false
  segmentsToCheck := 3
  enableCheckpoint := true
  checkpointFileSet := true
  hasOutputFile := true
  streamContentTypes :=
    ["application/vnd.apple.mpegurl", "application/x-mpegurl", "application/octet-stream",
     "video/mp2t", "video/mp4", "video/x-flv", "audio/mpegurl", "audio/x-mpegurl",
     "application/dash+xml", "video/x-ms-asf", "video/x-ms-wmv", "video/webm",
     "application/x-rtsp", "application/x-rtmp", "application/x-shockwave-flash",
     "flv-application/octet-stream", "video/x-matroska"]
  urlHash := fun s => s

/-- An environment where every GET yields a plain HTTP 404 response: enough
    to drive a probe down the status-code path. -/
def env_basic : NetEnv where
  get := fun _ => .ok ⟨404, "", "", [], none⟩
  head := fun _ => .ok 200
  ffprobeProc := fun _ => .timedOut
  likely := fun _ => false
  join := fun b r => b ++ r
  elapsed := 0

/-- An environment where the GET of `http://x/a.m3u8` returns a valid media
    playlist with one segment, and every segment HEAD check times out. -/
def env_seg_timeout : NetEnv where
  get := fun u =>
    if u = "http://x/a.m3u8" then .ok ⟨200, "", "#EXTM3U\nseg1.ts", [], none⟩
    else .ok ⟨200, "", "", [], none⟩
  head := fun _ => .timeout
  ffprobeProc := fun _ => .timedOut
  likely := fun _ => false
  join := fun b r => b ++ r
  elapsed := 0

/-- An environment with four segments where the HEAD of `s2.ts` reports
    HTTP 404 and every other HEAD succeeds. -/
def env_seg2_404 : NetEnv where
  get := fun _ => .ok ⟨200, "", "", [], none⟩
  head := fun u => if u = "http://h/s2.ts" then .ok 404 else .ok 200
  ffprobeProc := fun _ => .timedOut
  likely := fun _ => false
  join := fun b r => b ++ r
  elapsed := 0


/-! ## Frame and counting lemmas for the scheduler state -/

theorem save_intermediate_frame (cfg : Config) (st : RunState) :
    (save_intermediate_results cfg st).processedUrls = st.processedUrls
    ∧ (save_intermediate_results cfg st).results = st.results
    ∧ (save_intermediate_results cfg st).processedUrlHashes = st.processedUrlHashes
    ∧ (save_intermediate_results cfg st).totalUrls = st.totalUrls := by
  dsimp only [save_intermediate_results, save_checkpoint, save_results]
  split_ifs <;> exact ⟨rfl, rfl, rfl, rfl⟩

theorem check_url_step_frame (cfg : Config) (env : NetEnv) (rec : UrlRecord) (st : RunState) :
    ((check_url_step cfg env rec st).1).results = st.results
    ∧ ((check_url_step cfg env rec st).1).processedUrlHashes = st.processedUrlHashes
    ∧ ((check_url_step cfg env rec st).1).totalUrls = st.totalUrls := by
  dsimp only [check_url_step, probe_bookkeeping, save_intermediate_results, save_checkpoint,
    save_results]
  split_ifs <;> exact ⟨rfl, rfl, rfl⟩

theorem check_url_step_processed (cfg : Config) (env : NetEnv) (rec : UrlRecord) (st : RunState)
    (h : early_return cfg rec.url = false) :
    ((check_url_step cfg env rec st).1).processedUrls = st.processedUrls + 1 := by
  dsimp only [check_url_step, probe_bookkeeping, save_intermediate_results, save_checkpoint,
    save_results]
  rw [if_neg (by simp [h])]
  split_ifs <;> rfl

theorem record_result_processed (cfg : Config) (st : RunState) (p : UrlRecord × CheckOutcome) :
    (record_result cfg st p).processedUrls = st.processedUrls := by
  unfold record_result
  rcases p with ⟨rec, out⟩
  cases out.status <;> rfl

theorem record_result_sum (cfg : Config) (st : RunState) (p : UrlRecord × CheckOutcome) :
    bucket_sum (record_result cfg st p).results = bucket_sum st.results + 1 := by
  unfold record_result bucket_sum
  rcases p with ⟨rec, out⟩
  cases out.status <;> simp [List.length_append] <;> omega

theorem record_fold_processed (cfg : Config) :
    ∀ (outs : List (UrlRecord × CheckOutcome)) (st : RunState),
      ((outs.foldl (record_result cfg) st).processedUrls) = st.processedUrls := by
  intro outs
  induction outs with
  | nil => intro st; rfl
  | cons p rest ih =>
    intro st
    simpa [List.foldl_cons, record_result_processed] using ih (record_result cfg st p)

theorem record_fold_sum (cfg : Config) :
    ∀ (outs : List (UrlRecord × CheckOutcome)) (st : RunState),
      bucket_sum ((outs.foldl (record_result cfg) st).results)
        = bucket_sum st.results + outs.length := by
  intro outs
  induction outs with
  | nil => intro st; rfl
  | cons p rest ih =>
    intro st
    have := ih (record_result cfg st p)
    simp only [List.foldl_cons, this, record_result_sum, List.length_cons]
    omega

theorem step_fold_results (cfg : Config) (env : NetEnv) :
    ∀ (batch : List UrlRecord) (st : RunState),
      ((batch.foldl (fun s rec => (check_url_step cfg env rec s).1) st).results) = st.results := by
  intro batch
  induction batch with
  | nil => intro st; rfl
  | cons r rest ih =>
    intro st
    simp only [List.foldl_cons]
    rw [ih, (check_url_step_frame cfg env r st).1]

theorem step_fold_processed (cfg : Config) (env : NetEnv) :
    ∀ (batch : List UrlRecord) (st : RunState),
      (∀ r ∈ batch, early_return cfg r.url = false) →
      ((batch.foldl (fun s rec => (check_url_step cfg env rec s).1) st).processedUrls)
        = st.processedUrls + batch.length := by
  intro batch
  induction batch with
  | nil => intro st _; rfl
  | cons r rest ih =>
    intro st h
    simp only [List.foldl_cons]
    rw [ih _ (fun x hx => h x (List.mem_cons_of_mem _ hx)),
        check_url_step_processed cfg env r st (h r (List.mem_cons_self _ _)), List.length_cons]
    omega

theorem run_batch_inv (cfg : Config) (env : NetEnv) (batch : List UrlRecord) (st : RunState)
    (hb : ∀ r ∈ batch, early_return cfg r.url = false)
    (hinv : st.processedUrls = bucket_sum st.results) :
    (run_batch cfg env batch st).processedUrls
      = bucket_sum (run_batch cfg env batch st).results := by
  unfold run_batch
  rw [(save_intermediate_frame cfg _).1, (save_intermediate_frame cfg _).2.1,
      record_fold_processed, record_fold_sum, step_fold_results,
      step_fold_processed cfg env batch st hb, List.length_map]
  omega

theorem run_batches_foldl_inv (cfg : Config) (env : NetEnv) :
    ∀ (bs : List (List UrlRecord)) (st : RunState),
      (∀ b ∈ bs, ∀ r ∈ b, early_return cfg r.url = false) →
      st.processedUrls = bucket_sum st.results →
      ((bs.foldl (fun s b => run_batch cfg env b s) st).processedUrls
        = bucket_sum ((bs.foldl (fun s b => run_batch cfg env b s) st).results)) := by
  intro bs
  induction bs with
  | nil => intro st _ hinv; exact hinv
  | cons b rest ih =>
    intro st h hinv
    simp only [List.foldl_cons]
    exact ih _ (fun x hx r hr => h x (List.mem_cons_of_mem _ hx) r hr)
      (run_batch_inv cfg env b st (h b (List.mem_cons_self _ _)) hinv)

theorem mem_chunksFuel {α : Type _} (n : Nat) :
    ∀ (fuel : Nat) (l : List α) (b : List α), b ∈ chunksFuel n fuel l → ∀ r ∈ b, r ∈ l := by
  intro fuel
  induction fuel with
  | zero =>
    intro l b hb
    cases l with
    | nil => simp [chunksFuel] at hb
    | cons h t => simp [chunksFuel] at hb
  | succ fuel ih =>
    intro l b hb r hr
    cases l with
    | nil => simp [chunksFuel] at hb
    | cons x t =>
      simp only [chunksFuel, List.mem_cons] at hb
      rcases hb with hb | hb
      · exact List.take_subset _ _ (hb ▸ hr)
      · exact List.drop_subset _ _ (ih _ b hb r hr)

theorem dedup_subset :
    ∀ (l : List UrlRecord) (seen : List String) (r : UrlRecord),
      r ∈ dedup_records l seen → r ∈ l := by
  intro l
  induction l with
  | nil => intro seen r h; simp [dedup_records] at h
  | cons x rest ih =>
    intro seen r h
    unfold dedup_records at h
    split_ifs at h with hx
    · exact List.mem_cons_of_mem _ (ih _ r h)
    · rcases List.mem_cons.mp h with rfl | h
      · exact List.mem_cons_self _ _
      · exact List.mem_cons_of_mem _ (ih _ r h)

theorem save_results_frame (st : RunState) :
    (save_results st).processedUrls = st.processedUrls
    ∧ (save_results st).results = st.results
    ∧ (save_results st).checkpointFile = st.checkpointFile := by
  exact ⟨rfl, rfl, rfl⟩

theorem delete_checkpoint_frame (cfg : Config) (st : RunState) :
    (delete_checkpoint cfg st).processedUrls = st.processedUrls
    ∧ (delete_checkpoint cfg st).results = st.results := by
  unfold delete_checkpoint
  split_ifs <;> exact ⟨rfl, rfl⟩

theorem dedup_not_mem_seen :
    ∀ (l : List UrlRecord) (seen : List String) (r : UrlRecord),
      r ∈ dedup_records l seen → r.url ∉ seen := by
  intro l
  induction l with
  | nil => intro seen r h; simp [dedup_records] at h
  | cons x rest ih =>
    intro seen r h
    unfold dedup_records at h
    split_ifs at h with hx
    · exact ih seen r h
    · rcases List.mem_cons.mp h with rfl | h
      · exact hx
      · intro hs
        exact ih _ r h (List.mem_cons_of_mem _ hs)

theorem dedup_map_url_nodup :
    ∀ (l : List UrlRecord) (seen : List String),
      ((dedup_records l seen).map (fun r => r.url)).Nodup := by
  intro l
  induction l with
  | nil => intro seen; simp [dedup_records]
  | cons x rest ih =>
    intro seen
    unfold dedup_records
    split_ifs with hx
    · exact ih seen
    · simp only [List.map_cons, List.nodup_cons]
      refine ⟨?_, ih _⟩
      intro hmem
      rcases List.mem_map.mp hmem with ⟨r, hr, hurl⟩
      exact dedup_not_mem_seen _ _ r hr (hurl ▸ List.mem_cons_self _ _)

theorem dedup_find_eq :
    ∀ (l : List UrlRecord) (seen : List String) (u : String),
      (dedup_records l seen).find? (fun r => r.url == u)
        = if u ∈ seen then none else l.find? (fun r => r.url == u) := by
  intro l
  induction l with
  | nil =>
    intro seen u
    by_cases hu : u ∈ seen <;> simp [dedup_records, hu]
  | cons x rest ih =>
    intro seen u
    by_cases hx : x.url ∈ seen
    · simp only [dedup_records, if_pos hx]
      rw [ih seen u]
      by_cases hu : u ∈ seen
      · rw [if_pos hu, if_pos hu]
      · have hne : ¬ ((fun r => r.url == u) x) = true := by
          simp only [beq_iff_eq]
          intro he
          exact hu (he ▸ hx)
        rw [if_neg hu, if_neg hu,
          @List.find?_cons_of_neg _ (fun r => r.url == u) x rest hne]
    · simp only [dedup_records, if_neg hx]
      by_cases hxu : x.url = u
      · have hu : u ∉ seen := fun hs => hx (hxu ▸ hs)
        have hp : ((fun r => r.url == u) x) = true := by simp [beq_iff_eq, hxu]
        rw [@List.find?_cons_of_pos _ (fun r => r.url == u) x
              (dedup_records rest (x.url :: seen)) hp,
            if_neg hu, @List.find?_cons_of_pos _ (fun r => r.url == u) x rest hp]
      · have hne : ¬ ((fun r => r.url == u) x) = true := by simp [beq_iff_eq, hxu]
        rw [@List.find?_cons_of_neg _ (fun r => r.url == u) x
              (dedup_records rest (x.url :: seen)) hne,
            ih _ u]
        by_cases hu : u ∈ seen
        · rw [if_pos (List.mem_cons_of_mem _ hu), if_pos hu]
        · have hnc : u ∉ x.url :: seen := by
            intro hc
            rcases List.mem_cons.mp hc with rfl | hc
            · exact hxu rfl
            · exact hu hc
          rw [if_neg hnc, if_neg hu,
            @List.find?_cons_of_neg _ (fun r => r.url == u) x rest hne]

theorem listInfixOf_iff {α : Type _} [BEq α] [LawfulBEq α] (needle : List α) :
    ∀ l : List α, listInfixOf needle l = true ↔ needle <:+: l := by
  intro l
  induction l with
  | nil => simp [listInfixOf, List.isEmpty_iff, List.infix_nil]
  | cons h t ih =>
    simp only [listInfixOf, Bool.or_eq_true, List.isPrefixOf_iff_prefix, ih,
      List.infix_cons_iff]

theorem check_segments_all_ok (head : String → NetResult Nat) (segs : List String) :
    ∀ (k i : Nat),
      (∀ j, i ≤ j → j < i + k → ∃ s, head (segs.getD j "") = .ok s ∧ s < 400) →
      check_segments head segs k i = (true, none) := by
  intro k
  induction k with
  | zero => intro i _; rfl
  | succ k ih =>
    intro i h
    obtain ⟨s, hs, hlt⟩ := h i (Nat.le_refl i) (by omega)
    simp only [check_segments]
    rw [hs]
    simp only [if_neg (by omega : ¬ 400 ≤ s)]
    exact ih (i + 1) (fun j h1 h2 => h j (by omega) (by omega))

theorem check_segments_first_bad (head : String → NetResult Nat) (segs : List String) :
    ∀ (k i i' s : Nat), i ≤ i' → i' < i + k →
      (∀ j, i ≤ j → j < i' → ∃ sj, head (segs.getD j "") = .ok sj ∧ sj < 400) →
      head (segs.getD i' "") = .ok s → 400 ≤ s →
      check_segments head segs k i = (false, some (seg_detail (i' + 1) s)) := by
  intro k
  induction k with
  | zero => intro i i' s h1 h2; omega
  | succ k ih =>
    intro i i' s h1 h2 hall hok h400
    by_cases he : i' = i
    · subst he
      simp only [check_segments]
      rw [hok]
      simp [h400]
    · obtain ⟨sj, hj, hjlt⟩ := hall i (Nat.le_refl i) (by omega)
      simp only [check_segments]
      rw [hj]
      simp only [if_neg (by omega : ¬ 400 ≤ sj)]
      exact ih (i + 1) i' s (by omega) (by omega)
        (fun j hj1 hj2 => hall j (by omega) hj2) hok h400

theorem round2_zero : round2 0 = 0 := by norm_num [round2]

/-! ## Claim theorems -/

/-- C1, counterexample: the claimed invariant `completed ==
    sum(len(v) for v in outcomes_by_classification)` fails on the code.  For
    the single record with URL `"notaurl"`, `check_url` takes the
    invalid-URL-format early return (line 202), which skips the
    `processed_urls` increment at line 293, while `process_files` still
    appends the outcome to the invalid bucket: after the run (an outcome has
    been recorded) the completed counter is 0 but the buckets hold 1
    outcome. -/
theorem C1_counterexample :
    (process_files default_config env_basic [⟨"A", "notaurl", ""⟩] none).1.processedUrls = 0
    ∧ bucket_sum (process_files default_config env_basic [⟨"A", "notaurl", ""⟩] none).1.results
        = 1
    ∧ (process_files default_config env_basic [⟨"A", "notaurl", ""⟩] none).1.processedUrls
        ≠ bucket_sum
            (process_files default_config env_basic [⟨"A", "notaurl", ""⟩] none).1.results := by
  exact ⟨by decide, by decide, by decide⟩

/-- C1 (amended): for a fresh run (no checkpoint) in which no record takes an
    early-return path (invalid URL format, or an rtmp URL with ffprobe
    enabled), the completed counter equals the total number of outcomes
    stored across the four classification buckets at the end of the run (the
    counter is reconciled with the buckets at each batch boundary; records on
    early-return paths are appended to buckets without being counted). -/
theorem C1_theorem (cfg : Config) (env : NetEnv) (records : List UrlRecord)
    (h : ∀ r ∈ records, early_return cfg r.url = false) :
    (process_files cfg env records none).1.processedUrls
      = bucket_sum (process_files cfg env records none).1.results := by
  have hmem : ∀ r ∈ dedup_records records [], early_return cfg r.url = false :=
    fun r hr => h r (dedup_subset records [] r hr)
  simp only [process_files, resume_filter]
  split_ifs with h0 h1 h2
  · rfl
  · rfl
  · rfl
  · have hbs : ∀ b ∈ chunks cfg.concurrency (dedup_records records []),
        ∀ r ∈ b, early_return cfg r.url = false :=
      fun b hb r hr => hmem r (mem_chunksFuel cfg.concurrency _ _ b hb r hr)
    have hinv := run_batches_foldl_inv cfg env
      (chunks cfg.concurrency (dedup_records records []))
      { totalUrls := (dedup_records records []).length, checkpointFile := none }
      hbs rfl
    rw [(delete_checkpoint_frame cfg _).1, (delete_checkpoint_frame cfg _).2,
        (save_results_frame _).1, (save_results_frame _).2.1]
    exact hinv
  · have hbs : ∀ b ∈ chunks cfg.concurrency (dedup_records records []),
        ∀ r ∈ b, early_return cfg r.url = false :=
      fun b hb r hr => hmem r (mem_chunksFuel cfg.concurrency _ _ b hb r hr)
    have hinv := run_batches_foldl_inv cfg env
      (chunks cfg.concurrency (dedup_records records []))
      { totalUrls := (dedup_records records []).length, checkpointFile := none }
      hbs rfl
    rw [(delete_checkpoint_frame cfg _).1, (delete_checkpoint_frame cfg _).2]
    exact hinv

/-- C1, witness: the amended invariant at a concrete one-record run. -/
theorem C1_witness :
    (process_files default_config env_basic [⟨"A", "http://x/a.ts", ""⟩] none).1.processedUrls
      = bucket_sum
          (process_files default_config env_basic [⟨"A", "http://x/a.ts", ""⟩] none).1.results :=
  C1_theorem default_config env_basic [⟨"A", "http://x/a.ts", ""⟩] (by decide)

/-- C2, counterexample: dedup idempotence fails because a normally completed
    run deletes its checkpoint (lines 769-775): after the first run on the
    one-record list finishes (checkpoint file gone), the second run on the
    same list dispatches 1 probe, not 0. -/
theorem C2_counterexample :
    (process_files default_config env_basic [⟨"A", "http://x/a.ts", ""⟩] none).1.checkpointFile
        = none
    ∧ (process_files default_config env_basic [⟨"A", "http://x/a.ts", ""⟩]
          (process_files default_config env_basic [⟨"A", "http://x/a.ts", ""⟩]
              none).1.checkpointFile).2
        = 1 := by
  exact ⟨by decide, by decide⟩

/-- C2 (amended): with checkpointing enabled, a second run performs zero new
    probes only when the first run's checkpoint is still present (an
    interrupted run): if the checkpoint file contains the hash of every
    record's URL, the resume filter removes all records and no probe is
    dispatched.  A normally completed run deletes its checkpoint, so a rerun
    after normal completion re-probes every record. -/
theorem C2_theorem (cfg : Config) (env : NetEnv) (records : List UrlRecord) (cp : Checkpoint)
    (hset : cfg.checkpointFileSet = true) (hen : cfg.enableCheckpoint = true)
    (hall : ∀ r ∈ records, cfg.urlHash r.url ∈ cp.processedUrlHashes) :
    (process_files cfg env records (some cp)).2 = 0 := by
  have hfil : (dedup_records records []).filter
      (fun r => decide (cfg.urlHash r.url ∉ cp.processedUrlHashes)) = [] := by
    rw [List.filter_eq_nil_iff]
    intro a ha
    simp only [decide_eq_true_eq, not_not]
    exact hall a (dedup_subset records [] a ha)
  simp only [process_files, resume_filter]
  rw [if_pos (⟨hset, hen⟩ : cfg.checkpointFileSet = true ∧ cfg.enableCheckpoint = true)]
  simp only [hfil, List.isEmpty_nil]
  split_ifs <;> rfl

/-- C2, witness: a checkpoint already holding the record's hash yields zero
    probes. -/
theorem C2_witness :
    (process_files default_config env_basic [⟨"A", "http://x/a.ts", ""⟩]
        (some ⟨["http://x/a.ts"], ⟨[], [], [], []⟩, 1, 1⟩)).2 = 0 :=
  C2_theorem default_config env_basic [⟨"A", "http://x/a.ts", ""⟩]
    ⟨["http://x/a.ts"], ⟨[], [], [], []⟩, 1, 1⟩ rfl rfl (by decide)

/-- An environment whose GET always times out. -/
def env_get_timeout : NetEnv where
  get := fun _ => .timeout
  head := fun _ => .ok 200
  ffprobeProc := fun _ => .timedOut
  likely := fun _ => false
  join := fun b r => b ++ r
  elapsed := 0

/-- C3, counterexample: a timeout during a segment HEAD check does not yield
    classification Timeout.  The GET of `http://x/a.m3u8` succeeds with a
    playlist body, the HEAD of its only segment raises
    `asyncio.TimeoutError`, `_validate_media_playlist` catches it with
    `except Exception` (line 1245) and returns a failure detail, and
    `check_url` classifies the probe `invalid`. -/
theorem C3_counterexample :
    check_url_result default_config env_seg_timeout "http://x/a.m3u8"
        = ⟨.invalid, 0, some "Error checking segment 1: "⟩
    ∧ (check_url_result default_config env_seg_timeout "http://x/a.m3u8").status
        ≠ .timeout :=
  ⟨by decide, by decide⟩

/-- C3 (amended): a timeout of the initial GET yields classification Timeout
    and any other exception of the initial GET yields Error with the
    exception message as detail; but a timeout or other exception inside the
    deep playlist validation (variant fetch, segment HEAD) is caught by the
    validators and surfaces as classification Invalid with the validator's
    failure detail. -/
theorem C3_theorem (cfg : Config) (env : NetEnv) (url : String)
    (hp : url_parse_ok url = true)
    (hr : ¬ (strStartsWith (strToLower url) "rtmp://" = true ∧ cfg.useFfprobe = true)) :
    (env.get url = .timeout →
      check_url_result cfg env url = ⟨.timeout, env.elapsed, some "Request timed out"⟩)
    ∧ (∀ m, env.get url = .exc m →
        check_url_result cfg env url = ⟨.error, env.elapsed, some m⟩)
    ∧ (∀ resp d, env.get url = .ok resp → resp.status < 400 →
        (strEndsWith (strToLower url) ".m3u8" = true
          ∨ strContains (strToLower resp.contentType) "mpegurl" = true) →
        cfg.deepValidation = true →
        validate_m3u8 cfg env url resp.textBody = (false, d) →
        check_url_result cfg env url = ⟨.invalid, env.elapsed, d⟩) := by
  refine ⟨?_, ?_, ?_⟩
  · intro hget
    dsimp only [check_url_result]
    rw [if_neg (by simp [hp]), if_neg hr, hget]
  · intro m hget
    dsimp only [check_url_result]
    rw [if_neg (by simp [hp]), if_neg hr, hget]
  · intro resp d hget h400 hm3u8 hdeep hval
    dsimp only [check_url_result]
    rw [if_neg (by simp [hp]), if_neg hr, hget]
    dsimp only
    rw [if_pos h400, if_pos ⟨hm3u8, hdeep⟩, hval]

/-- C3, witness: the amended GET-timeout clause at a concrete URL. -/
theorem C3_witness :
    check_url_result default_config env_get_timeout "http://x/a.ts"
      = ⟨.timeout, env_get_timeout.elapsed, some "Request timed out"⟩ :=
  (C3_theorem default_config env_get_timeout "http://x/a.ts" (by decide) (by decide)).1 rfl

/-- The default configuration with the save interval lowered to one probe. -/
def cfg_save_every : Config := { default_config with saveInterval := 1 }

/-- C4, counterexample: the Prober is not pure with respect to the run state.
    One non-early-return `check_url` call increments the completed counter
    (line 293), and with `save_interval = 1` it also performs a persistence
    action itself (`save_intermediate_results`, line 299). -/
theorem C4_counterexample :
    ((check_url_step default_config env_basic ⟨"A", "http://x/a.ts", ""⟩
        ({} : RunState)).1.processedUrls = 1)
    ∧ ((check_url_step cfg_save_every env_basic ⟨"A", "http://x/a.ts", ""⟩
        ({} : RunState)).1.savesPerformed = 1) :=
  ⟨by decide, by decide⟩

/-- C4 (amended): the Prober never mutates the outcome buckets, the
    seen-identity set, or the total; those are updated only by the Scheduler
    loop in `process_files`.  But `check_url` itself increments the completed
    counter and triggers the periodic persistence cycle every `save_interval`
    probes (except on its early-return paths). -/
theorem C4_theorem (cfg : Config) (env : NetEnv) (rec : UrlRecord) (st : RunState) :
    ((check_url_step cfg env rec st).1).results = st.results
    ∧ ((check_url_step cfg env rec st).1).processedUrlHashes = st.processedUrlHashes
    ∧ ((check_url_step cfg env rec st).1).totalUrls = st.totalUrls :=
  check_url_step_frame cfg env rec st

/-- C5, counterexample: the `.m3u8` content check is not "starts with
    `#EXTM3U`" alone: a sample that merely contains the master-playlist
    marker `#EXT-X-STREAM-INF` is also accepted (line 1091). -/
theorem C5_counterexample :
    check_stream_content [] (some "#EXT-X-STREAM-INF") "a.m3u8" = true
    ∧ strStartsWith "#EXT-X-STREAM-INF" "#EXTM3U" = false :=
  ⟨by decide, by decide⟩

/-- C5 (amended): for a `.m3u8` URL, the content check accepts a decoded text
    sample iff it starts with `#EXTM3U` or contains `#EXT-X-STREAM-INF`
    (an undecodable sample is rejected). -/
theorem C5_theorem (bytes : List Nat) (url text : String)
    (h : strEndsWith (strToLower url) ".m3u8" = true) :
    check_stream_content bytes (some text) url = true
      ↔ (strStartsWith text "#EXTM3U" = true ∨ "#EXT-X-STREAM-INF".data <:+: text.data) := by
  dsimp only [check_stream_content]
  rw [if_pos h]
  simp [strContains, listInfixOf_iff]

/-- C5, witness: a sample starting with `#EXTM3U` is accepted for a `.m3u8`
    URL. -/
theorem C5_witness :
    check_stream_content [] (some "#EXTM3U\nseg.ts") "a.m3u8" = true :=
  (C5_theorem [] "a.m3u8" "#EXTM3U\nseg.ts" (by decide)).mpr (Or.inl (by decide))

/-- C6: `_validate_flv` accepts exactly the byte sequences with the strict
    9-byte FLV header: signature `FLV` (bytes 70 76 86), version byte 1,
    flags byte in {1, 4, 5}, and big-endian u32 header size 9; in particular
    any input shorter than 9 bytes is rejected (and the function is total, so
    it never raises). -/
theorem C6_theorem (b : List Nat) :
    validate_flv b = true ↔
      (9 ≤ b.length ∧ b.take 3 = [70, 76, 86] ∧ b.getD 3 0 = 1
        ∧ (b.getD 4 0 = 1 ∨ b.getD 4 0 = 4 ∨ b.getD 4 0 = 5)
        ∧ int_from_bytes_be ((b.drop 5).take 4) = 9) := by
  unfold validate_flv
  split_ifs with h1 h2 h3 h4 h5
  · refine iff_of_false not_false ?_
    rintro ⟨h9, -, -, -, -⟩
    omega
  · refine iff_of_false not_false ?_
    rintro ⟨-, -, hv, -, -⟩
    exact h3 hv
  · refine iff_of_false not_false ?_
    rintro ⟨-, -, -, -, hh⟩
    exact h5 hh
  · exact iff_of_true rfl
      ⟨by omega, h2, not_ne_iff.mp h3, h4, not_ne_iff.mp h5⟩
  · refine iff_of_false not_false ?_
    rintro ⟨-, -, -, hf, -⟩
    exact h4 hf
  · refine iff_of_false not_false ?_
    rintro ⟨-, ht, -, -, -⟩
    exact h2 ht

/-- C7: `_validate_media_playlist` fails with the no-segments detail when the
    body has no non-comment, non-blank segment line; otherwise it checks the
    first `min(len(segments), K)` segments in listed order, the first checked
    segment with HEAD status >= 400 failing the playlist with the 1-based
    index and status in the detail, and it succeeds when every checked
    segment is below 400. -/
theorem C7_theorem (cfg : Config) (env : NetEnv) (url content : String) :
    (extract_segments env url content = [] →
      validate_media_playlist cfg env url content
        = (false, some "No media segments found in playlist"))
    ∧ (∀ i s, i < min (extract_segments env url content).length cfg.segmentsToCheck →
        (∀ j, j < i → ∃ sj,
          env.head ((extract_segments env url content).getD j "") = .ok sj ∧ sj < 400) →
        env.head ((extract_segments env url content).getD i "") = .ok s → 400 ≤ s →
        validate_media_playlist cfg env url content = (false, some (seg_detail (i + 1) s)))
    ∧ (extract_segments env url content ≠ [] →
        (∀ j, j < min (extract_segments env url content).length cfg.segmentsToCheck →
          ∃ sj, env.head ((extract_segments env url content).getD j "") = .ok sj ∧ sj < 400) →
        validate_media_playlist cfg env url content = (true, none)) := by
  refine ⟨?_, ?_, ?_⟩
  · intro h
    dsimp only [validate_media_playlist]
    rw [if_pos (by rw [List.isEmpty_iff]; exact h)]
  · intro i s hi hall hok h400
    have hne : ¬ ((extract_segments env url content).isEmpty = true) := by
      rw [List.isEmpty_iff]
      intro he
      rw [he] at hi
      simp at hi
    dsimp only [validate_media_playlist]
    rw [if_neg hne]
    exact check_segments_first_bad env.head _ _ 0 i s (Nat.zero_le i) (by omega)
      (fun j _ hj => hall j hj) hok h400
  · intro hne hall
    dsimp only [validate_media_playlist]
    rw [if_neg (by rw [List.isEmpty_iff]; exact hne)]
    exact check_segments_all_ok env.head _ _ 0 (fun j _ hj => hall j (by omega))

/-- C7, witness: with the default `K = 3` and four segments where `s2.ts`
    HEADs to 404, the playlist is rejected with a detail containing
    `"Segment 2"`. -/
theorem C7_witness :
    validate_media_playlist default_config env_seg2_404 "http://h/p.m3u8"
        "#EXTM3U\ns1.ts\ns2.ts\ns3.ts\ns4.ts"
      = (false, some "Segment 2 HTTP status: 404")
    ∧ "Segment 2".data <:+: "Segment 2 HTTP status: 404".data := by
  constructor
  · have h := (C7_theorem default_config env_seg2_404 "http://h/p.m3u8"
        "#EXTM3U\ns1.ts\ns2.ts\ns3.ts\ns4.ts").2.1 1 404 (by decide)
      (fun j hj => by
        have hj0 : j = 0 := by omega
        subst hj0
        exact ⟨200, by decide, by decide⟩)
      (by decide) (by decide)
    rw [h]
    decide
  · decide

/-- C8: the Prober is total: `check_url` resolves every record to exactly one
    outcome whose classification is one of the four statuses; a malformed URL
    and an HTTP error status are captured into the outcome (the timeout and
    exception captures are the first two clauses of `C3`'s analysis; in this
    embedding every failure mode is a `NetResult` value consumed by
    `check_url_result`, which returns in all branches and has no exception
    channel). -/
theorem C8_theorem (cfg : Config) (env : NetEnv) (rec : UrlRecord) :
    ((check_url_result cfg env rec.url).status = .valid
      ∨ (check_url_result cfg env rec.url).status = .invalid
      ∨ (check_url_result cfg env rec.url).status = .timeout
      ∨ (check_url_result cfg env rec.url).status = .error)
    ∧ (url_parse_ok rec.url = false →
        check_url_result cfg env rec.url = ⟨.invalid, 0, some "Invalid URL format"⟩)
    ∧ (∀ resp, url_parse_ok rec.url = true →
        ¬ (strStartsWith (strToLower rec.url) "rtmp://" = true ∧ cfg.useFfprobe = true) →
        env.get rec.url = .ok resp → 400 ≤ resp.status →
        check_url_result cfg env rec.url
          = ⟨.invalid, env.elapsed, some ("HTTP status: " ++ toString resp.status)⟩) := by
  refine ⟨?_, ?_, ?_⟩
  · cases h : (check_url_result cfg env rec.url).status
    · exact Or.inl rfl
    · exact Or.inr (Or.inl rfl)
    · exact Or.inr (Or.inr (Or.inl rfl))
    · exact Or.inr (Or.inr (Or.inr rfl))
  · intro h
    dsimp only [check_url_result]
    rw [if_pos (by simp [h])]
  · intro resp hp hr hget h400
    dsimp only [check_url_result]
    rw [if_neg (by simp [hp]), if_neg hr, hget]
    dsimp only
    rw [if_neg (by omega)]

/-- C8, witness: the malformed-URL capture at a concrete record. -/
theorem C8_witness :
    check_url_result default_config env_basic "notaurl"
      = ⟨.invalid, 0, some "Invalid URL format"⟩ :=
  (C8_theorem default_config env_basic ⟨"A", "notaurl", ""⟩).2.1 (by decide)

/-- C9: per-run deduplication keeps exactly the first record bearing each URL
    string (the deduplicated list has pairwise distinct URLs and agrees with
    the input list's first match for every URL); after a resume, every
    remaining record's hash is absent from the loaded seen set; and with an
    injective hash the remaining records' identities are pairwise distinct,
    so each identity is dispatched at most once. -/
theorem C9_theorem (cfg : Config) (records : List UrlRecord) (st : RunState) (cp : Checkpoint)
    (hset : cfg.checkpointFileSet = true) (hen : cfg.enableCheckpoint = true)
    (hinj : Function.Injective cfg.urlHash) :
    ((dedup_records records []).map (fun r => r.url)).Nodup
    ∧ (∀ u, (dedup_records records []).find? (fun r => r.url == u)
          = records.find? (fun r => r.url == u))
    ∧ (∀ r ∈ (resume_filter cfg st (some cp) (dedup_records records [])).2,
        cfg.urlHash r.url ∉ cp.processedUrlHashes)
    ∧ (((resume_filter cfg st (some cp) (dedup_records records [])).2).map
          (fun r => cfg.urlHash r.url)).Nodup := by
  have hsnd : (resume_filter cfg st (some cp) (dedup_records records [])).2
      = (dedup_records records []).filter
          (fun r => decide (cfg.urlHash r.url ∉ cp.processedUrlHashes)) := by
    simp only [resume_filter]
    rw [if_pos (⟨hset, hen⟩ : cfg.checkpointFileSet = true ∧ cfg.enableCheckpoint = true)]
  refine ⟨dedup_map_url_nodup records [], ?_, ?_, ?_⟩
  · intro u
    have h := dedup_find_eq records [] u
    simpa using h
  · intro r hr
    rw [hsnd] at hr
    exact of_decide_eq_true (List.mem_filter.mp hr).2
  · rw [hsnd]
    have h1 : (((dedup_records records []).filter
          (fun r => decide (cfg.urlHash r.url ∉ cp.processedUrlHashes))).map
            (fun r => r.url)).Sublist ((dedup_records records []).map (fun r => r.url)) :=
      (List.filter_sublist _).map _
    have h2 := (dedup_map_url_nodup records []).sublist h1
    have h3 := h2.map hinj
    rw [List.map_map] at h3
    exact h3

/-- C9, witness: deduplicating a two-record list that repeats one URL leaves
    pairwise-distinct URLs. -/
theorem C9_witness :
    ((dedup_records [⟨"A", "http://x/a.ts", ""⟩, ⟨"B", "http://x/a.ts", ""⟩] []).map
        (fun r => r.url)).Nodup :=
  (C9_theorem default_config [⟨"A", "http://x/a.ts", ""⟩, ⟨"B", "http://x/a.ts", ""⟩]
      {} ⟨[], ⟨[], [], [], []⟩, 0, 0⟩ rfl rfl (fun _ _ h => h)).1

/-- C10: a record whose URL fails the scheme/authority parse check yields the
    early-return outcome with elapsed time exactly 0 (not the measured
    wall-clock time), with no state mutation, and the entry recorded for it
    carries `response_time = 0`. -/
theorem C10_theorem (cfg : Config) (env : NetEnv) (rec : UrlRecord) (st st' : RunState)
    (h : url_parse_ok rec.url = false) :
    check_url_step cfg env rec st = (st, ⟨.invalid, 0, some "Invalid URL format"⟩)
    ∧ (record_result cfg st' (rec, check_url_result cfg env rec.url)).results.invalid
        = st'.results.invalid
          ++ [⟨rec.name, rec.url, rec.category, 0, some "Invalid URL format"⟩] := by
  have hres : check_url_result cfg env rec.url = ⟨.invalid, 0, some "Invalid URL format"⟩ := by
    dsimp only [check_url_result]
    rw [if_pos (by simp [h])]
  have hearly : early_return cfg rec.url = true := by
    simp [early_return, h]
  constructor
  · dsimp only [check_url_step]
    rw [hres, if_pos hearly]
  · rw [hres]
    dsimp only [record_result]
    rw [round2_zero]

/-- C10, witness: the zero-elapsed early return at the concrete URL
    `"notaurl"`. -/
theorem C10_witness :
    check_url_step default_config env_basic ⟨"A", "notaurl", ""⟩ ({} : RunState)
      = ({}, ⟨.invalid, 0, some "Invalid URL format"⟩) :=
  (C10_theorem default_config env_basic ⟨"A", "notaurl", ""⟩ {} {} (by decide)).1
